import Mathlib

/-!
# Verification of the code-quality analysis engine

Shallow embedding of the Analysis & Scoring Engine of the `code-quality-mcp`
repository (TypeScript), together with theorems settling the specification
claims about it.  Each definition mirrors one function of the source tree:

* `CodeQuality.calculateScore`          — `QualityAnalyzer.calculateScore`
* `CodeQuality.generateRecommendations` — `QualityAnalyzer.generateRecommendations`
* `CodeQuality.checkCommonIssues`       — `QualityAnalyzer.checkCommonIssues` (pure core)
* `CodeQuality.analyzeNodeProjectDeps`  — `QualityAnalyzer.analyzeNodeProject` (manifest part)
* `CodeQuality.generateQuickWins`       — `AnalysisStorage.generateQuickWins`
* `CodeQuality.generateTrendsCore`      — `AnalysisStorage.generateTrends`
* `CodeQuality.saveAnalysis` / `CodeQuality.getLatestAnalysis`
                                        — `AnalysisStorage.saveAnalysis` / `getLatestAnalysis`
* `CodeQuality.findFunctions`           — `CodeAnalysisUtils.findFunctions`
* `CodeQuality.reactFunctionLengthIssues` — `ReactAnalysisService.analyzeReactProject`
                                        (function-length portion)
* `CodeQuality.fbBoundaries` / `fbCheckFunctionLengths`
                                        — `FirebaseAnalysisService.checkFunctionLengths`

Modelling conventions: the filesystem and glob enumeration are external to the
engine, so file sets reach the embedded checkers as explicit `(path, content)`
lists; JavaScript `Map` objects are embedded as association lists in key
first-insertion order; JavaScript numbers are embedded as `ℚ` (all values
arising here are exact decimals); `JSON.stringify`/`JSON.parse` round-tripping
of a well-formed value is modelled at the level of a JSON value tree.
-/

namespace CodeQuality

/-- Issue severity, from `QualityTypes.QualityIssue.severity`. -/
inductive Severity where
  | error
  | warning
  | info
deriving DecidableEq, Repr

/-- `QualityTypes.QualityIssue`: optional fields become `Option`. -/
structure QualityIssue where
  severity : Severity
  category : String
  file : Option String
  line : Option Nat
  message : String
  rule : String
deriving DecidableEq, Repr

/-- `QualityTypes.QualityStats` (all fields are JS numbers holding integers). -/
structure QualityStats where
  totalFiles : Int
  totalLines : Int
  averageFileSize : Int
  duplicateCode : Int
  unusedCode : Int
  complexity : Int
deriving DecidableEq, Repr

/-- `QualityTypes.QualityReport`.  `score` is an `Int`: `calculateScore`
always returns an integer (`Math.round` then `Math.max 0`).  `analysisType`
is the string union `'fast' | 'deep'`. -/
structure QualityReport where
  projectPath : String
  projectTypes : List String
  score : Int
  issues : List QualityIssue
  recommendations : List String
  stats : QualityStats
  analysisType : Option String
  aiInsights : Option (List String)
deriving DecidableEq, Repr

/-- `QualityTypes.ProjectInfo` restricted to the fields the embedded
operations read (`subProjects` / `mainFramework` are not consumed by any
embedded function). -/
structure ProjectInfo where
  types : List String
  isMultiProject : Bool
deriving DecidableEq, Repr

/-! ## Scoring (`QualityAnalyzer.calculateScore`) -/

/-- Per-severity score deduction from the `switch` in `calculateScore`. -/
def severityWeight : Severity → ℚ
  | .error => 5
  | .warning => 2
  | .info => 1/2

/-- JavaScript `Math.round` on the exact values arising here (integers and
half-integers): round half toward positive infinity, `⌊x + 1/2⌋`. -/
def jsRound (q : ℚ) : Int := ⌊q + 1/2⌋

/-- `QualityAnalyzer.calculateScore`: start at 100, subtract the weight of
each issue in order, then `Math.max(0, Math.round(score))`.  The `stats`
argument is accepted and ignored exactly as in the source. -/
def calculateScore (issues : List QualityIssue) (_stats : QualityStats) : Int :=
  let score : ℚ := issues.foldl (fun s i => s - severityWeight i.severity) 100
  max 0 (jsRound score)

/-- The score formula as the spec words it (claim C1): clamp the exact
rational `100 − Σ severityWeight` into `[0, 100]`, with no rounding. -/
def specClampScore (issues : List QualityIssue) : ℚ :=
  min 100 (max 0 (100 - (issues.map (fun i => severityWeight i.severity)).sum))

/-- Total severity deduction of an issue list. -/
def totalWeight (issues : List QualityIssue) : ℚ :=
  (issues.map (fun i => severityWeight i.severity)).sum

theorem foldl_sub_weight (issues : List QualityIssue) (a : ℚ) :
    issues.foldl (fun s i => s - severityWeight i.severity) a = a - totalWeight issues := by
  induction issues generalizing a with
  | nil => simp [totalWeight]
  | cons x xs ih =>
    simp only [List.foldl_cons, ih, totalWeight, List.map_cons, List.sum_cons]
    ring

theorem calculateScore_eq (issues : List QualityIssue) (stats : QualityStats) :
    calculateScore issues stats = max 0 (jsRound (100 - totalWeight issues)) := by
  simp [calculateScore, foldl_sub_weight]

/-- Number of issues of a given severity. -/
def countSeverity (issues : List QualityIssue) (s : Severity) : Nat :=
  (issues.filter (fun i => i.severity = s)).length

theorem totalWeight_cons (x : QualityIssue) (xs : List QualityIssue) :
    totalWeight (x :: xs) = severityWeight x.severity + totalWeight xs := by
  simp [totalWeight]

theorem countSeverity_cons (x : QualityIssue) (xs : List QualityIssue) (s : Severity) :
    countSeverity (x :: xs) s = (if x.severity = s then 1 else 0) + countSeverity xs s := by
  by_cases h : x.severity = s
  · simp [countSeverity, List.filter_cons, h]
    omega
  · simp [countSeverity, List.filter_cons, h]

theorem totalWeight_counts (issues : List QualityIssue) :
    totalWeight issues =
      5 * (countSeverity issues .error : ℚ) + 2 * (countSeverity issues .warning : ℚ)
        + (countSeverity issues .info : ℚ) / 2 := by
  induction issues with
  | nil => simp [totalWeight, countSeverity]
  | cons x xs ih =>
    rw [totalWeight_cons, ih]
    cases h : x.severity <;>
      simp only [countSeverity_cons, h, severityWeight, if_pos, if_neg,
        reduceCtorEq, Nat.cast_add, Nat.cast_one, Nat.cast_zero, Nat.cast_ofNat,
        reduceIte] <;> ring

/-- A sample stats record (the `stats` argument of `calculateScore` is unused
by the source). -/
def sampleStats : QualityStats :=
  { totalFiles := 0, totalLines := 0, averageFileSize := 0,
    duplicateCode := 0, unusedCode := 0, complexity := 0 }

/-- An issue record with the given severity and rule (other fields fixed). -/
def mkIssue (s : Severity) (ru : String) : QualityIssue :=
  { severity := s, category := "code-quality", file := none, line := none,
    message := "m", rule := ru }

theorem calculateScore_one_info :
    calculateScore [mkIssue .info "r"] sampleStats = 100 := by
  rw [calculateScore_eq]
  have h : totalWeight [mkIssue .info "r"] = 1/2 := by
    simp [totalWeight, mkIssue, severityWeight]
  rw [h]
  have h2 : (100 : ℚ) - 1/2 + 1/2 = ((100 : Int) : ℚ) := by norm_num
  rw [jsRound, h2, Int.floor_intCast]
  norm_num

theorem calculateScore_example_79 :
    calculateScore
      (List.replicate 3 (mkIssue .error "r") ++ List.replicate 2 (mkIssue .warning "r")
        ++ List.replicate 4 (mkIssue .info "r")) sampleStats = 79 := by
  rw [calculateScore_eq]
  have h : totalWeight
      (List.replicate 3 (mkIssue .error "r") ++ List.replicate 2 (mkIssue .warning "r")
        ++ List.replicate 4 (mkIssue .info "r")) = 21 := by
    simp [totalWeight, mkIssue, severityWeight]
    norm_num
  rw [h]
  have h2 : (100 : ℚ) - 21 + 1/2 = 79 + 1/2 := by norm_num
  rw [jsRound, h2]
  rw [show ((79 : ℚ) + 1/2) = (79 : Int) + 1/2 by norm_num]
  have h3 : ⌊(1/2 : ℚ)⌋ = 0 := by
    rw [Int.floor_eq_zero_iff]
    constructor <;> norm_num
  rw [Int.floor_int_add, h3]
  omega

/-- C1, counterexample: on a single `info` issue the implementation returns
`Math.max(0, Math.round(99.5)) = 100`, while the claimed formula
`clamp(100 − Σ severityWeight, 0, 100)` yields `99.5`; the two disagree. -/
theorem calculateScore_ne_specClamp :
    ¬ ((calculateScore [mkIssue .info "r"] sampleStats : ℚ)
        = specClampScore [mkIssue .info "r"]) := by
  rw [calculateScore_one_info]
  have h : specClampScore [mkIssue .info "r"] = 199/2 := by
    simp [specClampScore, mkIssue, severityWeight]
    norm_num
  rw [h]
  norm_num

/-- C1 (amended): for every list of issues, the score equals
`max(0, round(100 − Σ severityWeight(issue)))` with weights error = 5,
warning = 2, info = 0.5, where `round` is JavaScript `Math.round`
(half toward +∞).  Consequently 3 errors + 2 warnings + 4 info yield exactly
`round(100 − 21) = 79`, while a single info issue yields `round(99.5) = 100`
(not the unrounded `99.5` of the original claim). -/
theorem calculateScore_spec :
    (∀ (issues : List QualityIssue) (stats : QualityStats),
      calculateScore issues stats =
        max 0 (jsRound (100 - (5 * (countSeverity issues .error : ℚ)
          + 2 * (countSeverity issues .warning : ℚ)
          + (countSeverity issues .info : ℚ) / 2))))
    ∧ calculateScore
        (List.replicate 3 (mkIssue .error "r") ++ List.replicate 2 (mkIssue .warning "r")
          ++ List.replicate 4 (mkIssue .info "r")) sampleStats = 79
    ∧ calculateScore [mkIssue .info "r"] sampleStats = 100 := by
  refine ⟨fun issues stats => ?_, calculateScore_example_79, calculateScore_one_info⟩
  rw [calculateScore_eq, totalWeight_counts]

/-! ## Recommendations (`QualityAnalyzer.generateRecommendations`) -/

/-- Membership test of the `Set` built from `issues.map(i => i.category)`:
`issueCategories.has c`. -/
def hasCategory (issues : List QualityIssue) (c : String) : Bool :=
  issues.any (fun i => i.category = c)

/-- `QualityAnalyzer.generateRecommendations`: pushes canned strings in a
fixed category-check order, plus a monorepo recommendation gated on
`projectInfo.isMultiProject`. -/
def generateRecommendations (issues : List QualityIssue) (projectInfo : ProjectInfo) :
    List String :=
  (if hasCategory issues "file-size" then
    ["Consider breaking down large files into smaller, more focused modules"] else [])
  ++ (if hasCategory issues "imports" then
    ["Set up path aliases in tsconfig.json to avoid deep relative imports"] else [])
  ++ (if hasCategory issues "firebase-structure" then
    ["Split Firebase functions into separate files (max 5 functions per file)"] else [])
  ++ (if hasCategory issues "code-quality" then
    ["Replace console.log with proper logging framework"] else [])
  ++ (if projectInfo.isMultiProject then
    ["Consider using a monorepo tool like Lerna or Nx for better dependency management"]
    else [])

/-- C9, counterexample: two runs with identical issue lists (hence identical
category sets) but different `isMultiProject` flags produce different
recommendation lists, so recommendations are not a function of the category
set alone. -/
theorem generateRecommendations_not_category_determined :
    generateRecommendations [] { types := ["nodejs"], isMultiProject := false }
      ≠ generateRecommendations [] { types := ["nodejs"], isMultiProject := true } := by
  decide

/-- C9 (amended): for any two analysis runs whose issue lists contain the same
set of categories and whose project infos agree on `isMultiProject`, the
generated recommendation lists are identical — recommendations are a function
of (category set, multi-project flag), produced in a fixed category-check
order. -/
theorem generateRecommendations_determined
    (issues₁ issues₂ : List QualityIssue) (info₁ info₂ : ProjectInfo)
    (hcat : ∀ c, hasCategory issues₁ c = hasCategory issues₂ c)
    (hmulti : info₁.isMultiProject = info₂.isMultiProject) :
    generateRecommendations issues₁ info₁ = generateRecommendations issues₂ info₂ := by
  unfold generateRecommendations
  rw [hcat "file-size", hcat "imports", hcat "firebase-structure", hcat "code-quality",
    hmulti]

/-- Witness for `generateRecommendations_determined` at concrete inputs. -/
theorem generateRecommendations_determined_witness :
    generateRecommendations [mkIssue .error "no-console"]
        { types := ["react"], isMultiProject := true }
      = generateRecommendations
          [mkIssue .error "no-console", mkIssue .warning "no-console"]
          { types := ["nodejs"], isMultiProject := true } :=
  generateRecommendations_determined _ _ _ _
    (fun c => by simp [hasCategory, mkIssue]) rfl

/-! ## The TODO/FIXME checker (`QualityAnalyzer.checkCommonIssues`)

The glob enumeration is external: the embedded checker receives the matched
files as an explicit `(path, content)` list and keeps the source's
`slice(0, 50)` sampling bound. -/

/-- Split a character list at newline characters (JavaScript
`content.split('\n')` semantics: a trailing newline yields a trailing empty
line, and the empty string yields one empty line). -/
def splitLinesAux : List Char → List Char → List String
  | [], acc => [String.mk acc.reverse]
  | c :: rest, acc =>
    if c = '\n' then String.mk acc.reverse :: splitLinesAux rest []
    else splitLinesAux rest (c :: acc)

/-- `content.split('\n')`. -/
def splitLines (s : String) : List String := splitLinesAux s.data []

/-- Containment of `pat` as a contiguous run inside `l`. -/
def charsContain (pat : List Char) : List Char → Bool
  | [] => pat.isEmpty
  | l@(_ :: rest) => pat.isPrefixOf l || charsContain pat rest

/-- JavaScript `String.prototype.includes`: substring containment. -/
def jsIncludes (line pat : String) : Bool := charsContain pat.data line.data

/-- `QualityAnalyzer.checkCommonIssues` (pure core): for the first 50 files,
flag every line containing `TODO` or `FIXME` with an info issue of rule
`no-todo`. -/
def checkCommonIssues (files : List (String × String)) : List QualityIssue :=
  (files.take 50).flatMap (fun fc =>
    (splitLines fc.2).enum.filterMap (fun il =>
      if jsIncludes il.2 "TODO" || jsIncludes il.2 "FIXME" then
        some { severity := .info, category := "maintenance", file := some fc.1,
               line := some (il.1 + 1), message := "TODO/FIXME comment found",
               rule := "no-todo" }
      else none))

/-! ## Quick wins (`AnalysisStorage.generateQuickWins`) -/

/-- Key list of a JavaScript `Map` built by insertion: distinct keys in
first-occurrence order. -/
def dedupKeys : List String → List String
  | [] => []
  | a :: t => a :: (dedupKeys t).filter (fun b => b ≠ a)

theorem mem_dedupKeys (c : String) (l : List String) : c ∈ dedupKeys l ↔ c ∈ l := by
  induction l with
  | nil => simp [dedupKeys]
  | cons a t ih =>
    simp only [dedupKeys, List.mem_cons, List.mem_filter, ih]
    by_cases h : c = a <;> simp [h]

/-- The rule-keyed grouping `Map` of `generateQuickWins`: keys in
first-insertion order, each key's group in original issue order. -/
def groupByRule (issues : List QualityIssue) : List (String × List QualityIssue) :=
  (dedupKeys (issues.map (fun i => i.rule))).map
    (fun ru => (ru, issues.filter (fun i => i.rule = ru)))

/-- `AnalysisStorage.QuickWin`.  `scoreGain` is a JS number (`ℚ`); `effort`
is kept as the string the source stores (later re-parsed with `parseInt`). -/
structure QuickWin where
  title : String
  description : String
  effort : String
  impact : String
  scoreGain : ℚ
  filesAffected : Nat
deriving DecidableEq, Repr

/-- JavaScript `Math.min` on exact rationals. -/
def jsMin (a b : ℚ) : ℚ := if a ≤ b then a else b

/-- JavaScript `parseInt` on the effort strings arising here (which always
begin with a digit): value of the leading digit run. -/
def jsParseIntPrefix (s : String) : Nat :=
  (s.data.takeWhile Char.isDigit).foldl (fun n c => n * 10 + (c.toNat - '0'.toNat)) 0

/-- `new Set(issues.map(i => i.file).filter(Boolean)).size`: count of
distinct defined, non-empty file names (JS `filter(Boolean)` drops both
`undefined` and the empty string). -/
def fileSetSize (issues : List QualityIssue) : Nat :=
  (dedupKeys ((issues.filterMap (fun i => i.file)).filter (fun f => f ≠ ""))).length

/-- One iteration of the `ruleMap.forEach` body of `generateQuickWins`:
groups of fewer than 5 issues, and groups of any rule other than the four
hard-coded ones, synthesize nothing. -/
def makeWin (ru : String) (group : List QualityIssue) : Option QuickWin :=
  if 5 ≤ group.length then
    let n := group.length
    let files := fileSetSize group
    if ru = "no-unused-vars" then
      some { title := "Remove " ++ toString n ++ " unused variables",
             description := "Clean up unused code across " ++ toString files ++ " files",
             effort := toString (n * 2) ++ " minutes",
             impact := "Medium",
             scoreGain := jsMin 15 (n : ℚ),
             filesAffected := files }
    else if ru = "no-console" then
      some { title := "Remove " ++ toString n ++ " console statements",
             description := "Replace with proper logging",
             effort := toString n ++ " minutes",
             impact := "Low",
             scoreGain := jsMin 8 ((n : ℚ) / 2),
             filesAffected := files }
    else if ru = "no-hebrew-comments" then
      some { title := "Translate " ++ toString n ++ " Hebrew comments",
             description := "Improve code maintainability",
             effort := toString (n * 3) ++ " minutes",
             impact := "Low",
             scoreGain := jsMin 5 ((n : ℚ) / 3),
             filesAffected := files }
    else if ru = "no-todo-comments" then
      some { title := "Address " ++ toString n ++ " TODO comments",
             description := "Complete pending tasks or create tickets",
             effort := toString (n * 5) ++ " minutes",
             impact := "Medium",
             scoreGain := jsMin 10 ((n : ℚ) / 2),
             filesAffected := files }
    else none
  else none

/-- Return-on-investment used by the sort comparator:
`scoreGain / parseInt(effort)`. -/
def roi (w : QuickWin) : ℚ := w.scoreGain / (jsParseIntPrefix w.effort : ℚ)

/-- Stable insertion used to model JavaScript's stable
`sort((a, b) => roi(b) - roi(a))` (descending by ROI). -/
def insertWin (x : QuickWin) : List QuickWin → List QuickWin
  | [] => [x]
  | y :: ys => if roi y ≤ roi x then x :: y :: ys else y :: insertWin x ys

/-- Stable sort, descending by ROI. -/
def sortByROI : List QuickWin → List QuickWin
  | [] => []
  | x :: xs => insertWin x (sortByROI xs)

/-- `AnalysisStorage.generateQuickWins`: group by rule, synthesize wins for
the recognized high-occurrence rules, sort descending by ROI, keep 5. -/
def generateQuickWins (report : QualityReport) : List QuickWin :=
  (sortByROI ((groupByRule report.issues).filterMap (fun g => makeWin g.1 g.2))).take 5

theorem mem_insertWin (a x : QuickWin) (l : List QuickWin) :
    a ∈ insertWin x l ↔ a = x ∨ a ∈ l := by
  induction l with
  | nil => simp [insertWin]
  | cons y ys ih =>
    simp only [insertWin]
    split
    · simp
    · simp [ih]
      tauto

theorem mem_sortByROI (a : QuickWin) (l : List QuickWin) :
    a ∈ sortByROI l ↔ a ∈ l := by
  induction l with
  | nil => simp [sortByROI]
  | cons x xs ih => simp [sortByROI, mem_insertWin, ih]

theorem pairwise_insertWin (x : QuickWin) (l : List QuickWin)
    (h : l.Pairwise (fun a b => roi b ≤ roi a)) :
    (insertWin x l).Pairwise (fun a b => roi b ≤ roi a) := by
  induction l with
  | nil => simp [insertWin]
  | cons y ys ih =>
    rcases List.pairwise_cons.mp h with ⟨hy, hys⟩
    simp only [insertWin]
    split
    · rename_i hle
      refine List.pairwise_cons.mpr ⟨?_, h⟩
      intro b hb
      rcases List.mem_cons.mp hb with rfl | hb
      · exact hle
      · exact le_trans (hy b hb) hle
    · rename_i hgt
      refine List.pairwise_cons.mpr ⟨?_, ih hys⟩
      intro b hb
      rcases (mem_insertWin b x ys).mp hb with rfl | hb
      · exact le_of_not_le hgt
      · exact hy b hb

theorem pairwise_sortByROI (l : List QuickWin) :
    (sortByROI l).Pairwise (fun a b => roi b ≤ roi a) := by
  induction l with
  | nil => simp [sortByROI]
  | cons x xs ih => exact pairwise_insertWin x _ ih

theorem makeWin_length {ru : String} {g : List QualityIssue} {w : QuickWin}
    (h : makeWin ru g = some w) : 5 ≤ g.length := by
  unfold makeWin at h
  split at h
  · assumption
  · exact absurd h (by simp)

theorem makeWin_rule {ru : String} {g : List QualityIssue} {w : QuickWin}
    (h : makeWin ru g = some w) :
    ru ∈ ["no-unused-vars", "no-console", "no-hebrew-comments", "no-todo-comments"] := by
  unfold makeWin at h
  split at h
  · split at h
    · simp_all
    · split at h
      · simp_all
      · split at h
        · simp_all
        · split at h
          · simp_all
          · exact absurd h (by simp)
  · exact absurd h (by simp)

/-- Every quick win in the output arises from the rule group of some rule
occurring among the report's issues. -/
theorem generateQuickWins_mem {r : QualityReport} {w : QuickWin}
    (hw : w ∈ generateQuickWins r) :
    ∃ ru, ru ∈ r.issues.map (fun i => i.rule)
      ∧ 5 ≤ (r.issues.filter (fun i => i.rule = ru)).length
      ∧ ru ∈ ["no-unused-vars", "no-console", "no-hebrew-comments", "no-todo-comments"]
      ∧ makeWin ru (r.issues.filter (fun i => i.rule = ru)) = some w := by
  have h1 : w ∈ sortByROI ((groupByRule r.issues).filterMap (fun g => makeWin g.1 g.2)) :=
    List.mem_of_mem_take hw
  have h2 := (mem_sortByROI _ _).mp h1
  rcases List.mem_filterMap.mp h2 with ⟨g, hg, hmk⟩
  rcases List.mem_map.mp hg with ⟨ru, hru, rfl⟩
  exact ⟨ru, (mem_dedupKeys ru _).mp hru, makeWin_length hmk, makeWin_rule hmk, hmk⟩

/-- A report with the given issues (remaining fields fixed). -/
def mkReport (issues : List QualityIssue) : QualityReport :=
  { projectPath := "/p", projectTypes := ["nodejs"], score := 100, issues := issues,
    recommendations := [], stats := sampleStats, analysisType := none, aiInsights := none }

/-- C2, counterexample: a report with 5 issues of the unrecognized rule
`custom-rule` has a rule group with at least 5 members, yet
`generateQuickWins` returns no entry at all — not every group with ≥ 5
members synthesizes a quick win. -/
theorem generateQuickWins_misses_unrecognized_rule :
    5 ≤ ((mkReport (List.replicate 5 (mkIssue .info "custom-rule"))).issues.filter
          (fun i => i.rule = "custom-rule")).length
    ∧ generateQuickWins (mkReport (List.replicate 5 (mkIssue .info "custom-rule"))) = [] := by
  constructor
  · decide
  · decide

/-- C2 (amended): `generateQuickWins` groups the report's issues by rule id,
and every entry of the result arises from a group with at least 5 members
whose rule id is one of the four recognized rules (`no-unused-vars`,
`no-console`, `no-hebrew-comments`, `no-todo-comments`) — groups of other
rules synthesize nothing; the result is sorted descending by
`scoreGain / parseInt(effort)` and truncated to at most 5 entries; and a
report with 7 issues of rule `no-unused-vars` and 2 of rule `no-console`
yields exactly one entry. -/
theorem generateQuickWins_spec :
    (∀ r : QualityReport,
      (∀ w ∈ generateQuickWins r,
        ∃ ru, ru ∈ r.issues.map (fun i => i.rule)
          ∧ ru ∈ ["no-unused-vars", "no-console", "no-hebrew-comments", "no-todo-comments"]
          ∧ 5 ≤ (r.issues.filter (fun i => i.rule = ru)).length
          ∧ makeWin ru (r.issues.filter (fun i => i.rule = ru)) = some w)
      ∧ (generateQuickWins r).Pairwise (fun a b => roi b ≤ roi a)
      ∧ (generateQuickWins r).length ≤ 5)
    ∧ (generateQuickWins (mkReport (List.replicate 7 (mkIssue .info "no-unused-vars")
        ++ List.replicate 2 (mkIssue .info "no-console")))).length = 1 := by
  refine ⟨fun r => ⟨?_, ?_, ?_⟩, ?_⟩
  · intro w hw
    rcases generateQuickWins_mem hw with ⟨ru, h1, h2, h3, h4⟩
    exact ⟨ru, h1, h3, h2, h4⟩
  · exact List.Pairwise.sublist (List.take_sublist _ _) (pairwise_sortByROI _)
  · exact List.length_take_le _ _
  · decide

/-- The single quick win of the 7-unused-vars / 2-console example report. -/
def win72 : QuickWin :=
  { title := "Remove 7 unused variables",
    description := "Clean up unused code across 0 files",
    effort := "14 minutes", impact := "Medium", scoreGain := 7, filesAffected := 0 }

/-- Witness for `generateQuickWins_spec` at the example report and its win. -/
theorem generateQuickWins_spec_witness :
    ∃ ru, ru ∈ ((mkReport (List.replicate 7 (mkIssue .info "no-unused-vars")
        ++ List.replicate 2 (mkIssue .info "no-console"))).issues.map (fun i => i.rule))
      ∧ ru ∈ ["no-unused-vars", "no-console", "no-hebrew-comments", "no-todo-comments"]
      ∧ 5 ≤ ((mkReport (List.replicate 7 (mkIssue .info "no-unused-vars")
          ++ List.replicate 2 (mkIssue .info "no-console"))).issues.filter
            (fun i => i.rule = ru)).length
      ∧ makeWin ru ((mkReport (List.replicate 7 (mkIssue .info "no-unused-vars")
          ++ List.replicate 2 (mkIssue .info "no-console"))).issues.filter
            (fun i => i.rule = ru)) = some win72 :=
  (generateQuickWins_spec.1 _).1 win72 (by decide)

/-- C10: TODO/FIXME issues produced by the analyzer's common-issue checker
carry rule id `no-todo`, while `generateQuickWins` synthesizes its TODO quick
win only from groups of rule id `no-todo-comments`; hence on any report whose
issues never use rule `no-todo-comments` (in particular any analyzer-produced
report) every returned quick win arises from a non-TODO rule group. -/
theorem checkCommonIssues_rule_vs_quickWins :
    (∀ files : List (String × String), ∀ i ∈ checkCommonIssues files, i.rule = "no-todo")
    ∧ (∀ r : QualityReport, (∀ i ∈ r.issues, i.rule ≠ "no-todo-comments") →
        ∀ w ∈ generateQuickWins r,
          ∃ ru, ru ≠ "no-todo-comments"
            ∧ makeWin ru (r.issues.filter (fun i => i.rule = ru)) = some w) := by
  constructor
  · intro files i hi
    rcases List.mem_flatMap.mp hi with ⟨fc, _, hmem⟩
    rcases List.mem_filterMap.mp hmem with ⟨il, _, hil⟩
    by_cases h : (jsIncludes il.2 "TODO" || jsIncludes il.2 "FIXME") = true
    · rw [if_pos h] at hil
      cases hil
      rfl
    · rw [if_neg h] at hil
      cases hil
  · intro r hr w hw
    rcases generateQuickWins_mem hw with ⟨ru, h1, _, _, h4⟩
    rcases List.mem_map.mp h1 with ⟨i, hi, rfl⟩
    exact ⟨i.rule, hr i hi, h4⟩

/-- Witness for `checkCommonIssues_rule_vs_quickWins`: the checker flags the
TODO line of a one-file project with rule `no-todo`. -/
theorem checkCommonIssues_rule_witness :
    ({ severity := .info, category := "maintenance", file := some "a.ts",
       line := some 1, message := "TODO/FIXME comment found",
       rule := "no-todo" } : QualityIssue).rule = "no-todo" :=
  checkCommonIssues_rule_vs_quickWins.1 [("a.ts", "// TODO later")] _ (by decide)

/-! ## Snapshot store (`AnalysisStorage.saveAnalysis` / `getLatestAnalysis`)

The store writes `JSON.stringify({projectPath, timestamp, report})` to the
file `analysis_<hash>.json` and reads it back with `JSON.parse`; the
round-trip of a well-formed value through the JSON text is modelled at the
level of a JSON value tree.  The `md5` path hash and the wall clock are
external: the embedded operations take the hash function and the timestamp
string as parameters. -/

/-- A JSON value (`JSON.stringify`/`JSON.parse` image). -/
inductive Json where
  | null
  | bool (b : Bool)
  | num (q : ℚ)
  | str (s : String)
  | arr (elems : List Json)
  | obj (fields : List (String × Json))

/-- First-match field lookup in a JSON object field list. -/
def lookupField : List (String × Json) → String → Option Json
  | [], _ => none
  | (k', v) :: rest, k => if k' = k then some v else lookupField rest k

/-- JavaScript property access `j.k` on a parsed JSON value. -/
def jget (j : Json) (k : String) : Option Json :=
  match j with
  | .obj fs => lookupField fs k
  | _ => none

/-- `severity` serialized as its string literal. -/
def severityStr : Severity → String
  | .error => "error"
  | .warning => "warning"
  | .info => "info"

def decodeSeverity (s : String) : Option Severity :=
  if s = "error" then some .error
  else if s = "warning" then some .warning
  else if s = "info" then some .info
  else none

/-- A JSON number holding an integer. -/
def decodeIntNum (q : ℚ) : Option Int :=
  if q.den = 1 then some q.num else none

def encodeIssue (i : QualityIssue) : Json :=
  .obj ([("severity", .str (severityStr i.severity)), ("category", .str i.category)]
    ++ (match i.file with | some f => [("file", Json.str f)] | none => [])
    ++ (match i.line with | some n => [("line", Json.num n)] | none => [])
    ++ [("message", .str i.message), ("rule", .str i.rule)])

def decodeIssue (j : Json) : Option QualityIssue :=
  match jget j "severity", jget j "category", jget j "message", jget j "rule" with
  | some (.str sev), some (.str cat), some (.str msg), some (.str ru) =>
    match decodeSeverity sev with
    | some s =>
      some { severity := s, category := cat,
             file := match jget j "file" with | some (.str f) => some f | _ => none,
             line := match jget j "line" with
               | some (.num q) =>
                 if q.den = 1 ∧ 0 ≤ q.num then some q.num.toNat else none
               | _ => none,
             message := msg, rule := ru }
    | none => none
  | _, _, _, _ => none

def encodeStats (s : QualityStats) : Json :=
  .obj [("totalFiles", .num s.totalFiles), ("totalLines", .num s.totalLines),
        ("averageFileSize", .num s.averageFileSize), ("duplicateCode", .num s.duplicateCode),
        ("unusedCode", .num s.unusedCode), ("complexity", .num s.complexity)]

def decodeStats (j : Json) : Option QualityStats :=
  match jget j "totalFiles", jget j "totalLines", jget j "averageFileSize",
        jget j "duplicateCode", jget j "unusedCode", jget j "complexity" with
  | some (.num a), some (.num b), some (.num c), some (.num d), some (.num e),
      some (.num f) =>
    match decodeIntNum a, decodeIntNum b, decodeIntNum c, decodeIntNum d,
          decodeIntNum e, decodeIntNum f with
    | some a', some b', some c', some d', some e', some f' =>
      some { totalFiles := a', totalLines := b', averageFileSize := c',
             duplicateCode := d', unusedCode := e', complexity := f' }
    | _, _, _, _, _, _ => none
  | _, _, _, _, _, _ => none

def decodeStrList : List Json → Option (List String)
  | [] => some []
  | .str s :: rest => (decodeStrList rest).map (s :: ·)
  | _ => none

def decodeIssueList : List Json → Option (List QualityIssue)
  | [] => some []
  | j :: rest =>
    match decodeIssue j, decodeIssueList rest with
    | some i, some is => some (i :: is)
    | _, _ => none

def encodeReport (r : QualityReport) : Json :=
  .obj ([("projectPath", .str r.projectPath),
         ("projectTypes", .arr (r.projectTypes.map .str)),
         ("score", .num r.score),
         ("issues", .arr (r.issues.map encodeIssue)),
         ("recommendations", .arr (r.recommendations.map .str)),
         ("stats", encodeStats r.stats)]
    ++ (match r.analysisType with | some t => [("analysisType", Json.str t)] | none => [])
    ++ (match r.aiInsights with
        | some l => [("aiInsights", Json.arr (l.map .str))] | none => []))

def decodeReport (j : Json) : Option QualityReport :=
  match jget j "projectPath", jget j "projectTypes", jget j "score", jget j "issues",
        jget j "recommendations", jget j "stats" with
  | some (.str pp), some (.arr types), some (.num sc), some (.arr iss),
      some (.arr recs), some jstats =>
    match decodeStrList types, decodeIntNum sc, decodeIssueList iss,
          decodeStrList recs, decodeStats jstats with
    | some ts, some sci, some is, some rl, some stats =>
      some { projectPath := pp, projectTypes := ts, score := sci, issues := is,
             recommendations := rl, stats := stats,
             analysisType := match jget j "analysisType" with
               | some (.str t) => some t | _ => none,
             aiInsights := match jget j "aiInsights" with
               | some (.arr l) => decodeStrList l | _ => none }
    | _, _, _, _, _ => none
  | _, _, _, _, _, _ => none

/-- The storage directory: file name → parsed JSON content. -/
def Store := List (String × Json)

/-- Overwrite-or-create write of one file (`fs.writeFileSync`). -/
def setFile : Store → String → Json → Store
  | [], k, v => [(k, v)]
  | (k', v') :: rest, k, v =>
    if k' = k then (k, v) :: rest else (k', v') :: setFile rest k v

/-- Read of one file, `none` when `fs.existsSync` fails. -/
def getFile (st : Store) (k : String) : Option Json :=
  lookupField st k

/-- `AnalysisStorage.saveAnalysis`: overwrite the single slot
`analysis_<hash(projectPath)>.json` with `{projectPath, timestamp, report}`. -/
def saveAnalysis (hash : String → String) (timestamp : String) (st : Store)
    (projectPath : String) (report : QualityReport) : Store :=
  setFile st ("analysis_" ++ hash projectPath ++ ".json")
    (.obj [("projectPath", .str projectPath), ("timestamp", .str timestamp),
           ("report", encodeReport report)])

/-- `AnalysisStorage.getLatestAnalysis`: read the slot for the path, `null`
when absent, else `data.report`. -/
def getLatestAnalysis (hash : String → String) (st : Store)
    (projectPath : String) : Option QualityReport :=
  match getFile st ("analysis_" ++ hash projectPath ++ ".json") with
  | none => none
  | some j =>
    match jget j "report" with
    | some jr => decodeReport jr
    | none => none

theorem getFile_setFile (st : Store) (k : String) (v : Json) :
    getFile (setFile st k v) k = some v := by
  induction st with
  | nil => simp [getFile, setFile, lookupField]
  | cons kv rest ih =>
    obtain ⟨k', v'⟩ := kv
    by_cases h : k' = k
    · simp [getFile, setFile, lookupField, h]
    · simp only [getFile, setFile, lookupField, h, if_false, if_neg] at ih ⊢
      exact ih

theorem decodeStrList_map (l : List String) :
    decodeStrList (l.map .str) = some l := by
  induction l with
  | nil => rfl
  | cons s rest ih => simp [decodeStrList, ih]

theorem decodeIssue_encodeIssue (i : QualityIssue) :
    decodeIssue (encodeIssue i) = some i := by
  obtain ⟨s, cat, file, line, msg, ru⟩ := i
  cases s <;> cases file <;> cases line <;>
    simp [encodeIssue, decodeIssue, jget, lookupField, severityStr, decodeSeverity]

theorem decodeIssueList_map (l : List QualityIssue) :
    decodeIssueList (l.map encodeIssue) = some l := by
  induction l with
  | nil => rfl
  | cons i rest ih => simp [decodeIssueList, decodeIssue_encodeIssue, ih]

theorem decodeStats_encodeStats (s : QualityStats) :
    decodeStats (encodeStats s) = some s := by
  simp [encodeStats, decodeStats, jget, lookupField, decodeIntNum]

theorem decodeReport_encodeReport (r : QualityReport) :
    decodeReport (encodeReport r) = some r := by
  obtain ⟨pp, ts, sc, iss, recs, stats, at?, ai?⟩ := r
  cases at? <;> cases ai? <;>
    simp [encodeReport, decodeReport, jget, lookupField, decodeStrList_map,
      decodeIssueList_map, decodeStats_encodeStats, decodeIntNum]

/-- The save/latest round-trip, shared helper. -/
theorem getLatest_save_helper (hash : String → String) (ts : String) (st : Store)
    (p : String) (r : QualityReport) :
    getLatestAnalysis hash (saveAnalysis hash ts st p r) p = some r := by
  unfold getLatestAnalysis saveAnalysis
  rw [getFile_setFile]
  simp [jget, lookupField, decodeReport_encodeReport]

/-- C5: saving a snapshot for a project path and reading it back through the
single per-path slot returns a report equal to the saved one in every field,
for every path hash function, timestamp, prior store content, path and
report. -/
theorem saveAnalysis_roundTrip (hash : String → String) (ts : String) (st : Store)
    (p : String) (r : QualityReport) :
    getLatestAnalysis hash (saveAnalysis hash ts st p r) p = some r :=
  getLatest_save_helper hash ts st p r

/-! ## Trends (`AnalysisStorage.generateTrends`) -/

/-- One entry of `improvingAreas` / `degradingAreas`. -/
structure CategoryTrend where
  category : String
  before : Nat
  after : Nat
  change : Int
deriving DecidableEq, Repr

/-- `AnalysisStorage.TrendData` (the `timestamp : Date` field, an external
clock read, is omitted). -/
structure TrendData where
  previousScore : Option Int
  currentScore : Int
  scoreChange : Option Int
  previousIssueCount : Option Nat
  currentIssueCount : Nat
  issueChange : Option Int
  improvingAreas : List CategoryTrend
  degradingAreas : List CategoryTrend
deriving DecidableEq, Repr

/-- Number of issues of a given category. -/
def countIn (issues : List QualityIssue) (c : String) : Nat :=
  (issues.filter (fun i => i.category = c)).length

/-- `AnalysisStorage.countByCategory`: the category-count `Map`, embedded as
its key/value pairs in key first-insertion order. -/
def countByCategory (issues : List QualityIssue) : List (String × Nat) :=
  (dedupKeys (issues.map (fun i => i.category))).map (fun c => (c, countIn issues c))

/-- `map.get(category) || 0`. -/
def lookupCount : List (String × Nat) → String → Nat
  | [], _ => 0
  | (k, v) :: rest, c => if k = c then v else lookupCount rest c

/-- `AnalysisStorage.generateTrends`, split on the stored previous report:
build the current-only record, then (when a previous report exists) set the
deltas and scan the two category maps for strictly-changed categories. -/
def generateTrendsCore (previousReport : Option QualityReport)
    (currentReport : QualityReport) : TrendData :=
  let base : TrendData :=
    { previousScore := none, currentScore := currentReport.score, scoreChange := none,
      previousIssueCount := none, currentIssueCount := currentReport.issues.length,
      issueChange := none, improvingAreas := [], degradingAreas := [] }
  match previousReport with
  | none => base
  | some prev =>
    let prevCats := countByCategory prev.issues
    let currCats := countByCategory currentReport.issues
    { base with
      previousScore := some prev.score,
      scoreChange := some (currentReport.score - prev.score),
      previousIssueCount := some prev.issues.length,
      issueChange := some ((currentReport.issues.length : Int) - prev.issues.length),
      improvingAreas := prevCats.filterMap (fun kv =>
        let currCount := lookupCount currCats kv.1
        if currCount < kv.2 then
          some { category := kv.1, before := kv.2, after := currCount,
                 change := (currCount : Int) - kv.2 }
        else none),
      degradingAreas := currCats.filterMap (fun kv =>
        let prevCount := lookupCount prevCats kv.1
        if prevCount < kv.2 then
          some { category := kv.1, before := prevCount, after := kv.2,
                 change := (kv.2 : Int) - prevCount }
        else none) }

/-- `generateTrends(projectPath, currentReport)`: compare against the stored
snapshot for the path. -/
def generateTrends (hash : String → String) (st : Store) (projectPath : String)
    (currentReport : QualityReport) : TrendData :=
  generateTrendsCore (getLatestAnalysis hash st projectPath) currentReport

theorem lookupCount_map_mem (ks : List String) (f : String → Nat) (c : String)
    (h : c ∈ ks) : lookupCount (ks.map (fun k => (k, f k))) c = f c := by
  induction ks with
  | nil => cases h
  | cons k rest ih =>
    rcases List.mem_cons.mp h with rfl | h'
    · simp [lookupCount]
    · by_cases hk : k = c
      · simp [lookupCount, hk]
      · simp [lookupCount, hk, ih h']

theorem lookupCount_map_not_mem (ks : List String) (f : String → Nat) (c : String)
    (h : c ∉ ks) : lookupCount (ks.map (fun k => (k, f k))) c = 0 := by
  induction ks with
  | nil => rfl
  | cons k rest ih =>
    have hk : k ≠ c := fun he => h (he ▸ List.mem_cons_self k rest)
    have h' : c ∉ rest := fun hc => h (List.mem_cons_of_mem _ hc)
    simp [lookupCount, hk, ih h']

theorem countIn_pos_iff (issues : List QualityIssue) (c : String) :
    0 < countIn issues c ↔ c ∈ issues.map (fun i => i.category) := by
  rw [countIn, List.length_pos_iff_exists_mem]
  constructor
  · rintro ⟨i, hi⟩
    rcases List.mem_filter.mp hi with ⟨hi', hc⟩
    exact List.mem_map.mpr ⟨i, hi', by simpa using hc⟩
  · intro h
    rcases List.mem_map.mp h with ⟨i, hi, rfl⟩
    exact ⟨i, List.mem_filter.mpr ⟨hi, by simp⟩⟩

theorem lookupCount_countByCategory (issues : List QualityIssue) (c : String) :
    lookupCount (countByCategory issues) c = countIn issues c := by
  unfold countByCategory
  by_cases h : c ∈ issues.map (fun i => i.category)
  · exact lookupCount_map_mem _ _ _ ((mem_dedupKeys _ _).mpr h)
  · rw [lookupCount_map_not_mem _ _ _ (fun hc => h ((mem_dedupKeys _ _).mp hc))]
    have h0 : ¬ 0 < countIn issues c := fun hp => h ((countIn_pos_iff issues c).mp hp)
    omega

theorem mem_improvingAreas (prev curr : QualityReport) (c : String) :
    (∃ a ∈ (generateTrendsCore (some prev) curr).improvingAreas, a.category = c)
      ↔ countIn curr.issues c < countIn prev.issues c := by
  have himp : (generateTrendsCore (some prev) curr).improvingAreas =
      (countByCategory prev.issues).filterMap (fun kv =>
        if lookupCount (countByCategory curr.issues) kv.1 < kv.2 then
          some { category := kv.1, before := kv.2,
                 after := lookupCount (countByCategory curr.issues) kv.1,
                 change := (lookupCount (countByCategory curr.issues) kv.1 : Int) - kv.2 }
        else none) := rfl
  rw [himp]
  constructor
  · rintro ⟨a, ha, rfl⟩
    rcases List.mem_filterMap.mp ha with ⟨kv, hkv, hg⟩
    by_cases hlt : lookupCount (countByCategory curr.issues) kv.1 < kv.2
    · rw [if_pos hlt] at hg
      cases hg
      rcases List.mem_map.mp hkv with ⟨k, _, he⟩
      cases he
      rw [lookupCount_countByCategory] at hlt
      exact hlt
    · rw [if_neg hlt] at hg
      cases hg
  · intro hlt
    have hpos : 0 < countIn prev.issues c := lt_of_le_of_lt (Nat.zero_le _) hlt
    have hc : c ∈ prev.issues.map (fun i => i.category) := (countIn_pos_iff _ _).mp hpos
    have hkv : (c, countIn prev.issues c) ∈ countByCategory prev.issues :=
      List.mem_map.mpr ⟨c, (mem_dedupKeys _ _).mpr hc, rfl⟩
    exact ⟨_, List.mem_filterMap.mpr ⟨(c, countIn prev.issues c), hkv,
      by rw [if_pos (by rw [lookupCount_countByCategory]; exact hlt)]⟩, rfl⟩

theorem mem_degradingAreas (prev curr : QualityReport) (c : String) :
    (∃ a ∈ (generateTrendsCore (some prev) curr).degradingAreas, a.category = c)
      ↔ countIn prev.issues c < countIn curr.issues c := by
  have hdeg : (generateTrendsCore (some prev) curr).degradingAreas =
      (countByCategory curr.issues).filterMap (fun kv =>
        if lookupCount (countByCategory prev.issues) kv.1 < kv.2 then
          some { category := kv.1, before := lookupCount (countByCategory prev.issues) kv.1,
                 after := kv.2,
                 change := (kv.2 : Int) - lookupCount (countByCategory prev.issues) kv.1 }
        else none) := rfl
  rw [hdeg]
  constructor
  · rintro ⟨a, ha, rfl⟩
    rcases List.mem_filterMap.mp ha with ⟨kv, hkv, hg⟩
    by_cases hlt : lookupCount (countByCategory prev.issues) kv.1 < kv.2
    · rw [if_pos hlt] at hg
      cases hg
      rcases List.mem_map.mp hkv with ⟨k, _, he⟩
      cases he
      rw [lookupCount_countByCategory] at hlt
      exact hlt
    · rw [if_neg hlt] at hg
      cases hg
  · intro hlt
    have hpos : 0 < countIn curr.issues c := lt_of_le_of_lt (Nat.zero_le _) hlt
    have hc : c ∈ curr.issues.map (fun i => i.category) := (countIn_pos_iff _ _).mp hpos
    have hkv : (c, countIn curr.issues c) ∈ countByCategory curr.issues :=
      List.mem_map.mpr ⟨c, (mem_dedupKeys _ _).mpr hc, rfl⟩
    exact ⟨_, List.mem_filterMap.mpr ⟨(c, countIn curr.issues c), hkv,
      by rw [if_pos (by rw [lookupCount_countByCategory]; exact hlt)]⟩, rfl⟩

/-- C4: when a previous snapshot exists for the project path, a category
enters `improvingAreas` iff its issue count strictly decreased from the
previous report to the current one, enters `degradingAreas` iff it strictly
increased, an unchanged category appears in neither list, and `scoreChange`
and `issueChange` are current minus previous. -/
theorem generateTrends_spec (hash : String → String) (st : Store) (p : String)
    (prevR currR : QualityReport) (h : getLatestAnalysis hash st p = some prevR) :
    (∀ c, (∃ a ∈ (generateTrends hash st p currR).improvingAreas, a.category = c)
        ↔ countIn currR.issues c < countIn prevR.issues c)
    ∧ (∀ c, (∃ a ∈ (generateTrends hash st p currR).degradingAreas, a.category = c)
        ↔ countIn prevR.issues c < countIn currR.issues c)
    ∧ (∀ c, countIn currR.issues c = countIn prevR.issues c →
        (∀ a ∈ (generateTrends hash st p currR).improvingAreas, a.category ≠ c)
        ∧ (∀ a ∈ (generateTrends hash st p currR).degradingAreas, a.category ≠ c))
    ∧ (generateTrends hash st p currR).scoreChange = some (currR.score - prevR.score)
    ∧ (generateTrends hash st p currR).issueChange
        = some ((currR.issues.length : Int) - (prevR.issues.length : Int)) := by
  unfold generateTrends
  rw [h]
  refine ⟨mem_improvingAreas prevR currR, mem_degradingAreas prevR currR, ?_, rfl, rfl⟩
  intro c heq
  constructor
  · intro a ha hac
    have := (mem_improvingAreas prevR currR c).mp ⟨a, ha, hac⟩
    omega
  · intro a ha hac
    have := (mem_degradingAreas prevR currR c).mp ⟨a, ha, hac⟩
    omega

/-- An issue record with the given category (other fields fixed). -/
def mkCatIssue (c : String) : QualityIssue :=
  { severity := .info, category := c, file := none, line := none,
    message := "m", rule := "r" }

/-- The previous example report: two `imports` issues, one `code-quality`. -/
def prevEx : QualityReport :=
  mkReport [mkCatIssue "imports", mkCatIssue "imports", mkCatIssue "code-quality"]

/-- The current example report: one `imports` issue, two `code-quality`. -/
def currEx : QualityReport :=
  mkReport [mkCatIssue "imports", mkCatIssue "code-quality", mkCatIssue "code-quality"]

/-- Witness for `generateTrends_spec`: previous snapshot stored for `/p`,
`imports` strictly decreased. -/
theorem generateTrends_spec_witness :
    (∃ a ∈ (generateTrends (fun _ => "h")
        (saveAnalysis (fun _ => "h") "2025-01-01" [] "/p" prevEx) "/p" currEx).improvingAreas,
      a.category = "imports")
      ↔ countIn currEx.issues "imports" < countIn prevEx.issues "imports" :=
  (generateTrends_spec (fun _ => "h") _ "/p" prevEx currEx
    (getLatest_save_helper (fun _ => "h") "2025-01-01" [] "/p" prevEx)).1 "imports"

/-- C8: when no prior snapshot exists for the project path, the trend record
has `previousScore` absent, no deltas, and empty improving/degrading lists,
carrying only the current score and current issue count. -/
theorem generateTrends_first_run (hash : String → String) (st : Store) (p : String)
    (currR : QualityReport) (h : getLatestAnalysis hash st p = none) :
    generateTrends hash st p currR =
      { previousScore := none, currentScore := currR.score, scoreChange := none,
        previousIssueCount := none, currentIssueCount := currR.issues.length,
        issueChange := none, improvingAreas := [], degradingAreas := [] } := by
  unfold generateTrends
  rw [h]
  rfl

/-- Witness for `generateTrends_first_run` on the empty store. -/
theorem generateTrends_first_run_witness :
    generateTrends (fun _ => "h") ([] : Store) "/q" (mkReport []) =
      { previousScore := none, currentScore := 100, scoreChange := none,
        previousIssueCount := none, currentIssueCount := 0,
        issueChange := none, improvingAreas := [], degradingAreas := [] } :=
  generateTrends_first_run (fun _ => "h") [] "/q" (mkReport []) rfl

/-! ## Function-boundary discovery (`CodeAnalysisUtils.findFunctions`)

The declaration regexes are embedded as explicit prefix parsers.  `\s` is
modelled as ASCII whitespace (`Char.isWhitespace`) and `\w` as
`[A-Za-z0-9_]`, which agree with the JavaScript classes on the ASCII
source text the checkers scan. -/

/-- JS `\w`. -/
def isWordChar (c : Char) : Bool := c.isAlphanum || c = '_'

/-- Match a literal pattern as a prefix, returning the rest of the input. -/
def dropLiteral (pat : List Char) (input : List Char) : Option (List Char) :=
  match pat, input with
  | [], rest => some rest
  | _ :: _, [] => none
  | c :: cs, d :: ds => if c = d then dropLiteral cs ds else none

/-- Greedy `\s+`: at least one whitespace character, maximal run. -/
def dropWs1 (input : List Char) : Option (List Char) :=
  match input with
  | c :: rest => if c.isWhitespace then some (rest.dropWhile Char.isWhitespace) else none
  | [] => none

/-- Greedy `(\w+)` capture. -/
def takeWord1 (input : List Char) : Option String :=
  let w := input.takeWhile isWordChar
  if w.isEmpty then none else some (String.mk w)

/-- `(const|function|async\s+function)\s+(\w+)`, returning the captured
name.  The three keyword alternatives start with distinct characters, so
ordered non-backtracking choice is exact. -/
def matchKeywordAndName (l : List Char) : Option String :=
  let afterKw : Option (List Char) :=
    match dropLiteral "const".data l with
    | some r => dropWs1 r
    | none =>
      match dropLiteral "function".data l with
      | some r => dropWs1 r
      | none =>
        match dropLiteral "async".data l with
        | some r =>
          match dropWs1 r with
          | some r1 =>
            match dropLiteral "function".data r1 with
            | some r2 => dropWs1 r2
            | none => none
          | none => none
        | none => none
  match afterKw with
  | some r => takeWord1 r
  | none => none

/-- The per-line declaration regex of `findFunctions`:
`/^(export\s+)?(const|function|async\s+function)\s+(\w+)/`.  When the
optional `export\s+` group cannot complete, the keyword must match from
column 0 (a line that starts with `export` cannot also start with a
keyword, so no further backtracking arises). -/
def matchFunctionDecl (line : String) : Option String :=
  let l0 := line.data
  let l1 := match dropLiteral "export".data l0 with
    | some r =>
      match dropWs1 r with
      | some r1 => r1
      | none => l0
    | none => l0
  matchKeywordAndName l1

/-- Scan one line's characters with the running brace count and `started`
flag; the third component reports a mid-line stop (`started` and the count
hitting zero at a `}`). -/
def scanLine : List Char → Int → Bool → (Int × Bool × Bool)
  | [], c, s => (c, s, false)
  | ch :: rest, c, s =>
    if ch = '{' then scanLine rest (c + 1) true
    else if ch = '}' then
      if s ∧ c - 1 = 0 then (c - 1, s, true)
      else scanLine rest (c - 1) s
    else scanLine rest c s

/-- The inner loop of `findFunctions`: scan lines from index `j`, carrying
the brace count.  A mid-line stop records that line as the end; the
end-of-line check (`started && braceCount === 0`) breaks without assigning,
leaving the initial `endLine = i`; falling off the file also leaves `i`. -/
def findEndLoop (i : Nat) : List String → Nat → Int → Bool → Nat
  | [], _, _, _ => i
  | l :: rest, j, c, s =>
    match scanLine l.data c s with
    | (_, _, true) => j
    | (c', s', false) => if s' ∧ c' = 0 then i else findEndLoop i rest (j + 1) c' s'

/-- 0-based end line of the brace-balanced region starting at line `i`. -/
def findEnd (lines : List String) (i : Nat) : Nat :=
  findEndLoop i (lines.drop i) i 0 false

/-- A discovered function with its 1-based line span. -/
structure FuncInfo where
  name : String
  startLine : Nat
  endLine : Nat
deriving DecidableEq, Repr

/-- `CodeAnalysisUtils.findFunctions`: for every line matching the
declaration regex, scan forward balancing braces to net zero. -/
def findFunctions (content : String) : List FuncInfo :=
  let lines := splitLines content
  lines.enum.filterMap (fun il =>
    match matchFunctionDecl il.2 with
    | some name =>
      some { name := name, startLine := il.1 + 1, endLine := findEnd lines il.1 + 1 }
    | none => none)

/-- The single-quote character, as a string. -/
def sq : String := String.mk [Char.ofNat 39]

/-- The function-length portion of `ReactAnalysisService.analyzeReactProject`
(per file): flag every found function whose `endLine − startLine + 1`
exceeds the active limit. -/
def reactFunctionLengthIssues (content : String) (file : String)
    (maxFunctionLines : Nat) : List QualityIssue :=
  (findFunctions content).filterMap (fun f =>
    if (maxFunctionLines : Int) < (f.endLine : Int) - f.startLine + 1 then
      some { severity := .warning, category := "function-length", file := some file,
             line := some f.startLine,
             message := "Function " ++ sq ++ f.name ++ sq ++ " exceeds "
               ++ toString maxFunctionLines ++ " lines ("
               ++ toString ((f.endLine : Int) - f.startLine + 1) ++ " lines)",
             rule := "max-function-lines" }
    else none)

/-! ## Firebase function lengths (`FirebaseAnalysisService.checkFunctionLengths`) -/

/-- The Firebase declaration regex
`/^export\s+(const|function|async function)\s+(\w+)/gm` applied to one line:
`export` is mandatory and the third alternative is the literal
`async function` (one space). -/
def fbMatchDecl (line : String) : Option String :=
  match dropLiteral "export".data line.data with
  | some r =>
    match dropWs1 r with
    | some r1 =>
      let afterKw : Option (List Char) :=
        match dropLiteral "const".data r1 with
        | some r2 => dropWs1 r2
        | none =>
          match dropLiteral "function".data r1 with
          | some r2 => dropWs1 r2
          | none =>
            match dropLiteral "async function".data r1 with
            | some r2 => dropWs1 r2
            | none => none
      match afterKw with
      | some r2 => takeWord1 r2
      | none => none
    | none => none
  | none => none

/-- The declaration pass of `checkFunctionLengths`: each multiline-regex
match sits at a line start, and `content.substring(0, match.index)`
contains `i` newlines, so `lineNumber = i + 1`. -/
def fbDecls (content : String) : List (String × Nat) :=
  (splitLines content).enum.filterMap (fun il =>
    match fbMatchDecl il.2 with
    | some name => some (name, il.1 + 1)
    | none => none)

/-- The end-assignment loop of `checkFunctionLengths`:
`func.endLine = nextFunc ? nextFunc.startLine - 1 : lines.length`. -/
def assignEnds (total : Nat) : List (String × Nat) → List FuncInfo
  | [] => []
  | [d] => [{ name := d.1, startLine := d.2, endLine := total }]
  | d :: d2 :: rest =>
    { name := d.1, startLine := d.2, endLine := d2.2 - 1 }
      :: assignEnds total (d2 :: rest)

/-- The function boundaries `checkFunctionLengths` computes. -/
def fbBoundaries (content : String) : List FuncInfo :=
  assignEnds (splitLines content).length (fbDecls content)

/-- The issue pass of `FirebaseAnalysisService.checkFunctionLengths`. -/
def fbCheckFunctionLengths (content : String) (filePath : String)
    (maxLines : Nat) : List QualityIssue :=
  (fbBoundaries content).filterMap (fun f =>
    if (maxLines : Int) < (f.endLine : Int) - f.startLine + 1 then
      some { severity := .error, category := "firebase-function-length",
             file := some filePath, line := some f.startLine,
             message := "Function " ++ sq ++ f.name ++ sq ++ " exceeds "
               ++ toString maxLines ++ " lines ("
               ++ toString ((f.endLine : Int) - f.startLine + 1) ++ " lines)",
             rule := "firebase-function-max-lines" }
    else none)

/-- The boundary rule as the spec for the corrected claim words it: each
declaration's end line is the line before the next declaration's start, and
the last declaration ends at the file's last line. -/
def specNextDeclBoundaries (decls : List (String × Nat)) (total : Nat) : List FuncInfo :=
  (decls.zip ((decls.map (fun d => d.2 - 1)).tail ++ [total])).map (fun p =>
    { name := p.1.1, startLine := p.1.2, endLine := p.2 })

theorem assignEnds_eq (total : Nat) (decls : List (String × Nat)) :
    assignEnds total decls = specNextDeclBoundaries decls total := by
  induction decls with
  | nil => rfl
  | cons a tl ih =>
    cases tl with
    | nil => rfl
    | cons b rest =>
      simp only [assignEnds, specNextDeclBoundaries, List.map_cons, List.tail_cons,
        List.cons_append, List.zip_cons_cons, List.map, List.zip, List.append_eq] at ih ⊢
      rw [ih]

/-- The concrete file on which the two boundary notions disagree: the brace
balance closes on line 2, while the Firebase checker extends the single
declaration to the last line of the file. -/
def cexContent : String := "export function f() \x7b\n\x7d\n// t1\n// t2"

/-- C6, counterexample: on `cexContent` the Firebase checker assigns the
declared function the span 1–4 (to end of file), while `findFunctions`'
brace balancing assigns 1–2; the two boundary discoveries do not coincide. -/
theorem fbBoundaries_ne_findFunctions :
    fbBoundaries cexContent ≠ findFunctions cexContent := by
  decide

/-- C6 (amended): for every file content the Firebase function-length
checker determines each matched declaration's end line as the line before
the next matched declaration — and the file's last line for the final
declaration — rather than by brace balancing; its boundaries therefore need
not coincide with `findFunctions`. -/
theorem fbBoundaries_spec (content : String) :
    fbBoundaries content
      = specNextDeclBoundaries (fbDecls content) (splitLines content).length :=
  assignEnds_eq _ _

/-! ## Function-length thresholds (C7) -/

theorem findFunctions_startLine_inj {content : String} {f g : FuncInfo}
    (hf : f ∈ findFunctions content) (hg : g ∈ findFunctions content)
    (h : f.startLine = g.startLine) : f = g := by
  simp only [findFunctions] at hf hg
  rcases List.mem_filterMap.mp hf with ⟨il1, h1, hp1⟩
  rcases List.mem_filterMap.mp hg with ⟨il2, h2, hp2⟩
  obtain ⟨i1, l1⟩ := il1
  obtain ⟨i2, l2⟩ := il2
  cases hm1 : matchFunctionDecl l1 with
  | none => rw [hm1] at hp1; cases hp1
  | some n1 =>
    rw [hm1] at hp1
    cases hp1
    cases hm2 : matchFunctionDecl l2 with
    | none => rw [hm2] at hp2; cases hp2
    | some n2 =>
      rw [hm2] at hp2
      cases hp2
      have hidx : i1 = i2 := by simpa using h
      subst hidx
      have e1 := List.mem_enum_iff_getElem?.mp h1
      have e2 := List.mem_enum_iff_getElem?.mp h2
      rw [e1] at e2
      have hl : l1 = l2 := by simpa using e2
      subst hl
      rw [hm1] at hm2
      cases hm2
      rfl

/-- C7: for every file content and active `max-function-lines` limit, a
function whose brace-balanced span (`endLine − startLine + 1`, as found by
`findFunctions`) is exactly `threshold + 1` lines is flagged with a
`max-function-lines` issue at its start line, while a function spanning
exactly `threshold` lines produces no issue at its start line. -/
theorem reactFunctionLength_threshold (content file : String) (maxLines : Nat)
    (f : FuncInfo) (hf : f ∈ findFunctions content) :
    ((f.endLine : Int) - f.startLine + 1 = (maxLines : Int) + 1 →
      ∃ i ∈ reactFunctionLengthIssues content file maxLines,
        i.line = some f.startLine ∧ i.rule = "max-function-lines")
    ∧ ((f.endLine : Int) - f.startLine + 1 = (maxLines : Int) →
      ∀ i ∈ reactFunctionLengthIssues content file maxLines,
        i.line ≠ some f.startLine) := by
  constructor
  · intro hspan
    exact ⟨_, List.mem_filterMap.mpr ⟨f, hf, by rw [if_pos (by omega)]⟩, rfl, rfl⟩
  · intro hspan i hi hline
    rcases List.mem_filterMap.mp hi with ⟨g, hg, hp⟩
    by_cases hlt : (maxLines : Int) < (g.endLine : Int) - g.startLine + 1
    · rw [if_pos hlt] at hp
      cases hp
      have hsg : g.startLine = f.startLine := by simpa using hline
      have : g = f := findFunctions_startLine_inj hg hf hsg
      subst this
      omega
    · rw [if_neg hlt] at hp
      cases hp

/-- A file whose single function spans 4 lines (braces balance on line 4). -/
def c7content : String := "function foo() \x7b\nx\ny\n\x7d"

/-- Witness for `reactFunctionLength_threshold`: with limit 3, the 4-line
function of `c7content` is flagged at line 1. -/
theorem reactFunctionLength_threshold_witness :
    ∃ i ∈ reactFunctionLengthIssues c7content "App.tsx" 3,
      i.line = some (FuncInfo.mk "foo" 1 4).startLine
        ∧ i.rule = "max-function-lines" :=
  (reactFunctionLength_threshold c7content "App.tsx" 3 (FuncInfo.mk "foo" 1 4)
    (by decide)).1 (by decide)

/-! ## Manifest parsing in `QualityAnalyzer.analyzeNodeProject` (C3)

`JSON.parse` is embedded as an executable parser for the JSON subset
manifests use (objects, arrays, unescaped strings, integers, booleans,
null); malformed input yields an error value, exactly as `JSON.parse`
throws.  The surrounding `readFile` returns `''`on read failure and
`fileExists` guards the call, so the parser input is the file's content
whenever the file exists. -/

/-- JSON insignificant whitespace. -/
def skipWsJ (l : List Char) : List Char :=
  l.dropWhile (fun c => c = ' ' || c = '\n' || c = '\t' || c = '\r')

/-- Body of a JSON string literal after the opening quote (escape sequences
do not occur in the modelled inputs and are rejected). -/
def parseStrBodyAux : List Char → List Char → Option (String × List Char)
  | [], _ => none
  | c :: rest, acc =>
    if c = '"' then some (String.mk acc.reverse, rest)
    else if c = '\\' then none
    else parseStrBodyAux rest (c :: acc)

def digitsToNat (ds : List Char) : Nat :=
  ds.foldl (fun n c => n * 10 + (c.toNat - '0'.toNat)) 0

/-- A JSON integer literal. -/
def parseNum (l : List Char) : Option (Json × List Char) :=
  match l with
  | '-' :: r =>
    let ds := r.takeWhile Char.isDigit
    if ds.isEmpty then none
    else some (Json.num (-(digitsToNat ds : ℚ)), r.dropWhile Char.isDigit)
  | _ =>
    let ds := l.takeWhile Char.isDigit
    if ds.isEmpty then none
    else some (Json.num (digitsToNat ds : ℚ), l.dropWhile Char.isDigit)

mutual

/-- One JSON value; every recursive call consumes at least one character,
so `input.length + 1` fuel always suffices. -/
def parseValue : Nat → List Char → Option (Json × List Char)
  | 0, _ => none
  | Nat.succ fuel, l =>
    match skipWsJ l with
    | [] => none
    | c :: rest =>
      if c = '"' then (parseStrBodyAux rest []).map (fun p => (Json.str p.1, p.2))
      else if c = 't' then (dropLiteral "rue".data rest).map (fun r => (Json.bool true, r))
      else if c = 'f' then (dropLiteral "alse".data rest).map (fun r => (Json.bool false, r))
      else if c = 'n' then (dropLiteral "ull".data rest).map (fun r => (Json.null, r))
      else if c = '{' then
        match skipWsJ rest with
        | '}' :: r => some (Json.obj [], r)
        | r => (parseMembers fuel r).map (fun p => (Json.obj p.1, p.2))
      else if c = '[' then
        match skipWsJ rest with
        | ']' :: r => some (Json.arr [], r)
        | r => (parseElems fuel r).map (fun p => (Json.arr p.1, p.2))
      else parseNum (c :: rest)

/-- Members of a JSON object after the opening brace. -/
def parseMembers : Nat → List Char → Option (List (String × Json) × List Char)
  | 0, _ => none
  | Nat.succ fuel, l =>
    match skipWsJ l with
    | '"' :: r =>
      match parseStrBodyAux r [] with
      | some (k, r1) =>
        match skipWsJ r1 with
        | ':' :: r2 =>
          match parseValue fuel r2 with
          | some (v, r3) =>
            match skipWsJ r3 with
            | ',' :: r4 => (parseMembers fuel r4).map (fun p => ((k, v) :: p.1, p.2))
            | '}' :: r4 => some ([(k, v)], r4)
            | _ => none
          | none => none
        | _ => none
      | none => none
    | _ => none

/-- Elements of a JSON array after the opening bracket. -/
def parseElems : Nat → List Char → Option (List Json × List Char)
  | 0, _ => none
  | Nat.succ fuel, l =>
    match parseValue fuel l with
    | some (v, r) =>
      match skipWsJ r with
      | ',' :: r2 => (parseElems fuel r2).map (fun p => (v :: p.1, p.2))
      | ']' :: r2 => some ([v], r2)
      | _ => none
    | none => none

end

/-- `JSON.parse`: parse one value and require only whitespace to follow;
anything else throws (an `Except.error`). -/
def jsonParse (s : String) : Except String Json :=
  match parseValue (s.data.length + 1) s.data with
  | some (v, rest) =>
    if (skipWsJ rest).isEmpty then .ok v else .error "Unexpected token in JSON"
  | none => .error "Unexpected token in JSON"

/-- `Object.keys(packageJson.dependencies || {})` (manifest `dependencies`
values are objects whenever present). -/
def jsGetDeps (j : Json) : List String :=
  match j with
  | .obj fs =>
    match lookupField fs "dependencies" with
    | some (.obj ds) => ds.map (fun kv => kv.1)
    | _ => []
  | _ => []

/-- The `commonUnused` probe list of `analyzeNodeProject`. -/
def commonUnused : List String := ["lodash", "moment", "axios"]

/-- The dependency-check section of `QualityAnalyzer.analyzeNodeProject`
(lines 408–441): when `package.json` exists, its content goes through an
unguarded `JSON.parse`, so a parse failure propagates out of the function
instead of degrading to "no data"; with a parsed manifest, each probed
dependency present in `dependencies` but not textually used in the first 10
project files yields an `unused-dependency` info issue. -/
def analyzeNodeProjectDeps (packageJson : Option String)
    (projectFiles : List (String × String)) : Except String (List QualityIssue) :=
  match packageJson with
  | none => .ok []
  | some content =>
    match jsonParse content with
    | .error e => .error e
    | .ok js =>
      let deps := jsGetDeps js
      .ok (commonUnused.filterMap (fun dep =>
        if deps.contains dep then
          if (projectFiles.take 10).any (fun fc => jsIncludes fc.2 dep) then none
          else some { severity := .info, category := "dependencies", file := none,
                      line := none,
                      message := "Potentially unused dependency: " ++ dep,
                      rule := "unused-dependency" }
        else none))

/-- C3, code-bug evidence: a project whose `package.json` exists but holds
malformed content makes the dependency check of `analyzeNodeProject` throw
(the unguarded `JSON.parse` error propagates, aborting the analysis run
instead of degrading to "no data"), while the same check on a well-formed
manifest completes normally — so the abort comes precisely from the
malformed manifest. -/
theorem analyzeNodeProject_throws_on_malformed_manifest :
    analyzeNodeProjectDeps (some "\x7b oops") [] = .error "Unexpected token in JSON"
    ∧ analyzeNodeProjectDeps (some "\x7b\"dependencies\": \x7b\"lodash\": \"1\"\x7d\x7d") []
      = .ok [{ severity := .info, category := "dependencies", file := none,
               line := none, message := "Potentially unused dependency: lodash",
               rule := "unused-dependency" }] := by
  constructor
  · rfl
  · rfl

end CodeQuality
